import Mathlib

/-!
Shallow embedding of the pen-drawing SDK's stroke-processing core
(`src/` of the repository): geometry helpers, the curve-fitting engine
(SmoothStrategy.js), the stroke renderer walk (CanvasRenderer.js), the
real-time path smoother (PathSmoother.js), the adaptive sampler and
pressure resampler (StrokeUtils.js), the undo/redo history model
(index.js), and the FPS hysteresis governor (index.js).

JavaScript numbers are modelled as real numbers.  `a || b` on numbers is
modelled as substituting `b` when `a = 0` (the only falsy numeric value
representable in `ℝ`).  `a ?? b` on an optional is modelled with
`Option.getD` / `List.getD`.
-/

noncomputable section

namespace PenSDK

/-- A 2D point, `{x, y}` in the source. -/
@[ext]
structure Point where
  x : ℝ
  y : ℝ

/-- JS `a || d` for a number `a`: substitute the default when `a` is falsy
(`0` is the only falsy real). -/
def jsOrNum (a d : ℝ) : ℝ := if a = 0 then d else a

/-- JS `opts.field || d` where the field may be absent. -/
def jsOrOpt (a : Option ℝ) (d : ℝ) : ℝ :=
  match a with
  | none => d
  | some v => jsOrNum v d

/-- Vector from `b` to `a`, i.e. `a - b` componentwise (the source writes
`{x: p1.x - p0.x, y: p1.y - p0.y}`). -/
def vsub (a b : Point) : Point := ⟨a.x - b.x, a.y - b.y⟩

/-- `Math.sqrt(v.x*v.x + v.y*v.y) || 0.001`: the length of a segment vector
with the source's epsilon substitution for a zero length. -/
def jsLenP (v : Point) : ℝ :=
  let l := Real.sqrt (v.x * v.x + v.y * v.y)
  if l = 0 then 0.001 else l

/-- Unit vector `{x: v.x/len, y: v.y/len}` with the epsilon-guarded length. -/
def unitOf (v : Point) : Point := ⟨v.x / jsLenP v, v.y / jsLenP v⟩

/-- Dot product of the two epsilon-guarded unit vectors, as computed inline
by the renderers (`u1.x*u2.x + u1.y*u2.y`). -/
def unitDot (v1 v2 : Point) : ℝ :=
  (unitOf v1).x * (unitOf v2).x + (unitOf v1).y * (unitOf v2).y

/-- The blend vector of `getMomentumControlPoint` (SmoothStrategy.js lines
101-105), before normalization. -/
def momentumBlend (p0 p1 p2 : Point) : Point :=
  let u1 := unitOf (vsub p1 p0)
  let u2 := unitOf (vsub p2 p1)
  let dotProduct := u1.x * u2.x + u1.y * u2.y
  let blendFactor := min 1 (max 0 ((1 + dotProduct) / 1.5))
  ⟨u1.x * (1 - blendFactor) + u2.x * blendFactor,
   u1.y * (1 - blendFactor) + u2.y * blendFactor⟩

/-- `getMomentumControlPoint(p0, p1, p2, options)` from SmoothStrategy.js:
momentum-aware quadratic control point, returned as `{cx, cy}`. -/
def getMomentumControlPoint (p0 p1 p2 : Point) (momentumFactorOpt : Option ℝ) : Point :=
  let v1 := vsub p1 p0
  let v2 := vsub p2 p1
  let len1 := jsLenP v1
  let len2 := jsLenP v2
  let momentumFactor := jsOrOpt momentumFactorOpt 0.4
  let u1 := unitOf v1
  let u2 := unitOf v2
  let dotProduct := u1.x * u2.x + u1.y * u2.y
  let curvatureFactor := max 0 (1 - dotProduct)
  let adaptiveMomentum := momentumFactor * (1 + curvatureFactor)
  let blend := momentumBlend p0 p1 p2
  let blendLen := jsLenP blend
  let normBlendX := blend.x / blendLen
  let normBlendY := blend.y / blendLen
  let controlLen := ((len1 + len2) / 2) * adaptiveMomentum
  ⟨p1.x + normBlendX * controlLen, p1.y + normBlendY * controlLen⟩

/-- First blend vector of `getCubicMomentumControlPoints` (SmoothStrategy.js
lines 169-177), before normalization. -/
def cubicBlend1 (p0 p1 p2 : Point) : Point :=
  let u1 := unitOf (vsub p1 p0)
  let u2 := unitOf (vsub p2 p1)
  let dp1 := u1.x * u2.x + u1.y * u2.y
  let blendFactor1 := min 1 (max 0 ((1 + dp1) / 1.5))
  ⟨u1.x * (1 - blendFactor1 * 0.7) + u2.x * blendFactor1 * 0.3,
   u1.y * (1 - blendFactor1 * 0.7) + u2.y * blendFactor1 * 0.3⟩

/-- Second blend vector of `getCubicMomentumControlPoints` (SmoothStrategy.js
lines 179-182), before normalization. -/
def cubicBlend2 (p1 p2 p3 : Point) : Point :=
  let u2 := unitOf (vsub p2 p1)
  let u3 := unitOf (vsub p3 p2)
  let dp2 := u2.x * u3.x + u2.y * u3.y
  let blendFactor2 := min 1 (max 0 ((1 + dp2) / 1.5))
  ⟨u2.x * (1 - blendFactor2 * 0.3) + u3.x * blendFactor2 * 0.7,
   u2.y * (1 - blendFactor2 * 0.3) + u3.y * blendFactor2 * 0.7⟩

/-- `getCubicMomentumControlPoints(p0, p1, p2, p3, options)` from
SmoothStrategy.js: the two cubic control points `(cp1, cp2)`. -/
def getCubicMomentumControlPoints (p0 p1 p2 p3 : Point)
    (controlFactorOpt speedThresholdOpt : Option ℝ) : Point × Point :=
  let v1 := vsub p1 p0
  let v2 := vsub p2 p1
  let v3 := vsub p3 p2
  let len1 := jsLenP v1
  let len2 := jsLenP v2
  let len3 := jsLenP v3
  let u1 := unitOf v1
  let u2 := unitOf v2
  let u3 := unitOf v3
  let dp1 := u1.x * u2.x + u1.y * u2.y
  let dp2 := u2.x * u3.x + u2.y * u3.y
  let curvature1 := max 0 (1 - dp1)
  let curvature2 := max 0 (1 - dp2)
  let speed := (len1 + len2 + len3) / 3
  let speedFactor := min 1 (speed / jsOrOpt speedThresholdOpt 25)
  let baseControlFactor := jsOrOpt controlFactorOpt 0.35
  let ctrl1Len := len2 * baseControlFactor * (1 + curvature1 * 0.75 + speedFactor * 0.5)
  let ctrl2Len := len2 * baseControlFactor * (1 + curvature2 * 0.75 + speedFactor * 0.5)
  let blend1 := cubicBlend1 p0 p1 p2
  let blend2 := cubicBlend2 p1 p2 p3
  let blend1Len := jsLenP blend1
  let blend2Len := jsLenP blend2
  let norm1 : Point := ⟨blend1.x / blend1Len, blend1.y / blend1Len⟩
  let norm2 : Point := ⟨blend2.x / blend2Len, blend2.y / blend2Len⟩
  (⟨p1.x + norm1.x * ctrl1Len, p1.y + norm1.y * ctrl1Len⟩,
   ⟨p2.x - norm2.x * ctrl2Len, p2.y - norm2.y * ctrl2Len⟩)

/-- Blend vector of `getFinalSegmentControlPoints` (SmoothStrategy.js lines
256-258), before normalization. -/
def finalBlend (prev curr next : Point) : Point :=
  let u1 := unitOf (vsub curr prev)
  let u2 := unitOf (vsub next curr)
  let dotProduct := u1.x * u2.x + u1.y * u2.y
  let blendFactor := min 1 (max 0 ((1 + dotProduct) / 1.5))
  ⟨u1.x * (1 - blendFactor * 0.5) + u2.x * blendFactor * 0.5,
   u1.y * (1 - blendFactor * 0.5) + u2.y * blendFactor * 0.5⟩

/-- `getFinalSegmentControlPoints(prev, curr, next, options)` from
SmoothStrategy.js: control points `(cp1, cp2)` for a stroke's first/last
segment and for sharp turns. -/
def getFinalSegmentControlPoints (prev curr next : Point)
    (momentumFactorOpt speedThresholdOpt endFactorOpt : Option ℝ) : Point × Point :=
  let v2 := vsub next curr
  let len2 := jsLenP v2
  let u1 := unitOf (vsub curr prev)
  let u2 := unitOf v2
  let dotProduct := u1.x * u2.x + u1.y * u2.y
  let curvatureFactor := max 0 (1 - dotProduct)
  let speedFactor := min 1 (len2 / jsOrOpt speedThresholdOpt 30)
  let baseMomentum := jsOrOpt momentumFactorOpt 0.4
  let cp1Momentum := baseMomentum * (1 + curvatureFactor + speedFactor * 0.5)
  let blend := finalBlend prev curr next
  let blendLen := jsLenP blend
  let normalizedBlendX := blend.x / blendLen
  let normalizedBlendY := blend.y / blendLen
  let cp1Len := len2 * cp1Momentum
  let endFactor := jsOrOpt endFactorOpt 0.15
  let cp2Factor := endFactor * (1 - curvatureFactor * 0.5)
  (⟨curr.x + normalizedBlendX * cp1Len, curr.y + normalizedBlendY * cp1Len⟩,
   ⟨next.x - v2.x * cp2Factor, next.y - v2.y * cp2Factor⟩)

/-- All normalization denominators used by `getMomentumControlPoint`. -/
def momentumDenoms (p0 p1 p2 : Point) : List ℝ :=
  [jsLenP (vsub p1 p0), jsLenP (vsub p2 p1), jsLenP (momentumBlend p0 p1 p2)]

/-- All normalization denominators used by `getCubicMomentumControlPoints`. -/
def cubicDenoms (p0 p1 p2 p3 : Point) : List ℝ :=
  [jsLenP (vsub p1 p0), jsLenP (vsub p2 p1), jsLenP (vsub p3 p2),
   jsLenP (cubicBlend1 p0 p1 p2), jsLenP (cubicBlend2 p1 p2 p3)]

/-- All normalization denominators used by `getFinalSegmentControlPoints`. -/
def finalDenoms (prev curr next : Point) : List ℝ :=
  [jsLenP (vsub curr prev), jsLenP (vsub next curr), jsLenP (finalBlend prev curr next)]

/-! The stroke renderer walk (`CanvasRenderer._renderSmoothedPath`). -/

/-- Indexing `points[i]` inside the renderer walk (always in range there). -/
def pget (l : List Point) (i : ℕ) : Point := l.getD i ⟨0, 0⟩

/-- JS `pressures[i] || 0.5`: missing or zero pressure falls back to 0.5. -/
def jsPressureOr (prs : List ℝ) (i : ℕ) : ℝ :=
  match prs[i]? with
  | none => 0.5
  | some v => jsOrNum v 0.5

/-- Per-segment stroke width set by the walk (CanvasRenderer.js lines
194-195): `stroke.baseSize * (0.5 + (pressures[i] || 0.5))`. -/
def segWidth (baseSize : ℝ) (prs : List ℝ) (i : ℕ) : ℝ :=
  baseSize * (0.5 + jsPressureOr prs i)

/-- Which curve-fitting routine a window of the walk used. -/
inductive SegKind where
  | line
  | quad
  | finalSharp
  | finalEdge
  | cubic
deriving DecidableEq

/-- A drawing primitive emitted to the canvas context. -/
inductive DrawCmd where
  | lineTo (p : Point)
  | quadTo (c p : Point)
  | bezierTo (c1 c2 p : Point)

/-- One iteration of the renderer walk: the window's start index, the
routine chosen, the line width set for the window, and the draw call. -/
structure Step where
  idx : ℕ
  kind : SegKind
  width : ℝ
  cmd : DrawCmd

/-- The while-loop of `_renderSmoothedPath` (CanvasRenderer.js lines
188-282), starting at cursor `i` (the JS loop runs while
`i < points.length - 1` and advances `i` by 2 when it does not break). -/
def walkAux (pts : List Point) (prs : List ℝ) (baseSize momentumFactor curveFactor : ℝ)
    (i : ℕ) : List Step :=
  if h : i < pts.length - 1 then
    let w := segWidth baseSize prs i
    let remaining := pts.length - i
    if remaining = 2 then
      [⟨i, .line, w, .lineTo (pget pts (i + 1))⟩]
    else if remaining = 3 then
      let cp := getMomentumControlPoint (pget pts i) (pget pts (i + 1)) (pget pts (i + 2))
        (some momentumFactor)
      [⟨i, .quad, w, .quadTo cp (pget pts (i + 2))⟩]
    else
      let p0 := pget pts i
      let p1 := pget pts (i + 1)
      let p2 := pget pts (i + 2)
      let p3 := pget pts (i + 3)
      let dotp := unitDot (vsub p2 p1) (vsub p3 p2)
      if dotp < 0 then
        let cps := getFinalSegmentControlPoints p0 p1 p2
          (some momentumFactor) (some 20) (some 0.2)
        ⟨i, .finalSharp, w, .bezierTo cps.1 cps.2 p2⟩ ::
          walkAux pts prs baseSize momentumFactor curveFactor (i + 2)
      else if i = 0 ∨ i = pts.length - 4 then
        let cps := getFinalSegmentControlPoints p0 p1 p2
          (some 0.4) (some 25) (some 0.15)
        ⟨i, .finalEdge, w, .bezierTo cps.1 cps.2 p2⟩ ::
          walkAux pts prs baseSize momentumFactor curveFactor (i + 2)
      else
        let cps := getCubicMomentumControlPoints p0 p1 p2 p3
          (some curveFactor) (some 25)
        ⟨i, .cubic, w, .bezierTo cps.1 cps.2 p2⟩ ::
          walkAux pts prs baseSize momentumFactor curveFactor (i + 2)
  else []
termination_by pts.length - i
decreasing_by all_goals omega

/-- `_renderSmoothedPath(points, pressures, stroke)`: the list of segment
draw calls.  Fewer than 2 points draws nothing; exactly 2 points draws a
straight line; otherwise the while-loop walks the points. -/
def renderSmoothedPath (pts : List Point) (prs : List ℝ)
    (baseSize momentumFactor curveFactor : ℝ) : List Step :=
  if pts.length < 2 then []
  else if pts.length = 2 then
    [⟨0, .line, segWidth baseSize prs 0, .lineTo (pget pts 1)⟩]
  else walkAux pts prs baseSize momentumFactor curveFactor 0

/-- The sharp-turn test the walk applies to the 4-point window starting at
`i`: the dot of the unit vectors of `p1→p2` and `p2→p3` is negative. -/
def sharpAt (pts : List Point) (i : ℕ) : Prop :=
  unitDot (vsub (pget pts (i + 2)) (pget pts (i + 1)))
    (vsub (pget pts (i + 3)) (pget pts (i + 2))) < 0

/-- The window used one of the final-segment branches. -/
def usesFinal (k : SegKind) : Prop := k = .finalSharp ∨ k = .finalEdge

/-- The tie-break rule of the specification for the window starting at
`i`: a 2-point remainder draws a line, a 3-point remainder uses the
quadratic function, and a 4-point window uses the final-segment function
on a sharp turn or at the stroke's first or last window, else the cubic
momentum function. -/
def specC4Kind (pts : List Point) (i : ℕ) (k : SegKind) : Prop :=
  (pts.length - i = 2 → k = .line) ∧
  (pts.length - i = 3 → k = .quad) ∧
  (4 ≤ pts.length - i →
    (sharpAt pts i → usesFinal k) ∧
    (¬ sharpAt pts i → (i = 0 ∨ i = pts.length - 4) → usesFinal k) ∧
    (¬ sharpAt pts i → ¬ (i = 0 ∨ i = pts.length - 4) → k = .cubic))

/-- The cursor advance asserted by the claim: 1 position after a quadratic
or final-segment window, 2 after a cubic window. -/
def specC4Advance (k : SegKind) : ℕ := if k = .cubic then 2 else 1

/-- Six collinear points spaced one unit apart, a concrete stroke input. -/
def ptsC4 : List Point := [⟨0, 0⟩, ⟨1, 0⟩, ⟨2, 0⟩, ⟨3, 0⟩, ⟨4, 0⟩, ⟨5, 0⟩]

/-- Constant pressures matching `ptsC4`. -/
def prsC4 : List ℝ := [0.5, 0.5, 0.5, 0.5, 0.5, 0.5]

/-! The Stroke entity (tools/Stroke.js) and the DrawingBoard history model
(index.js): snapshot list, cursor, and the pointer/undo/redo/clear
operations. -/

/-- The Stroke entity: points, parallel pressures, tool, color, widths and
creation timestamp (tools/Stroke.js). -/
structure Stroke where
  tool : String
  points : List Point
  pressures : List ℝ
  color : String
  width : ℝ
  baseSize : ℝ
  timestamp : ℤ

/-- `new Stroke(tool, startPoint, pressure, baseSize)` at time `now`. -/
def Stroke.new (tool : String) (startPoint : Point) (pressure : ℝ) (baseSize : ℝ)
    (now : ℤ) : Stroke :=
  { tool := tool
    points := [startPoint]
    pressures := [pressure]
    color := if tool = "eraser" then "white" else "black"
    width := baseSize
    baseSize := baseSize
    timestamp := now }

/-- `stroke.addPoint(point, pressure)`. -/
def Stroke.addPoint (s : Stroke) (p : Point) (pressure : ℝ) : Stroke :=
  { s with points := s.points ++ [p], pressures := s.pressures ++ [pressure] }

/-- `stroke.isValid()`: at least two points. -/
def Stroke.isValid (s : Stroke) : Bool := 2 ≤ s.points.length

/-- `stroke.clone()`: a fresh Stroke whose points/pressures arrays are
copied and all scalar fields carried over; in a value model this is the
identity on the stroke's value. -/
def Stroke.clone (s : Stroke) : Stroke :=
  { tool := s.tool
    points := s.points
    pressures := s.pressures
    color := s.color
    width := s.width
    baseSize := s.baseSize
    timestamp := s.timestamp }

/-- DrawingBoard state relevant to the history model: the live stroke
list, the snapshot list, the cursor (JS starts it at -1), and the
in-progress stroke. -/
structure BoardState where
  strokes : List Stroke
  history : List (List Stroke)
  historyIndex : ℤ
  currentStroke : Option Stroke

/-- JS `array.slice(0, e)`: a negative `e` counts from the end, and `e`
past the length is clamped. -/
def jsSliceTo (l : List (List Stroke)) (e : ℤ) : List (List Stroke) :=
  if e < 0 then l.take ((l.length : ℤ) + e).toNat else l.take e.toNat

/-- `this.history[i]` in undo/redo; the index is in range in every
reachable use, so out-of-range reads default to an empty snapshot. -/
def histGet (l : List (List Stroke)) (i : ℤ) : List Stroke := l.getD i.toNat []

/-- `_saveToHistory()` (index.js lines 158-172): deep-clone the stroke
list, truncate any snapshots after the cursor, append, move the cursor to
the new last snapshot. -/
def saveToHistory (s : BoardState) : BoardState :=
  let copy := s.strokes.map Stroke.clone
  let hist := if s.historyIndex < (s.history.length : ℤ) - 1 then
      jsSliceTo s.history (s.historyIndex + 1)
    else s.history
  let hist2 := hist ++ [copy]
  { s with history := hist2, historyIndex := (hist2.length : ℤ) - 1 }

/-- `undo()` (index.js lines 174-206): if there is an earlier snapshot,
move the cursor back and restore a clone of that snapshot. -/
def undo (s : BoardState) : BoardState :=
  if 0 < s.history.length ∧ 0 < s.historyIndex then
    let i := s.historyIndex - 1
    { s with historyIndex := i, strokes := (histGet s.history i).map Stroke.clone }
  else s

/-- `redo()` (index.js lines 208-231): if there is a later snapshot, move
the cursor forward and restore a clone of that snapshot. -/
def redo (s : BoardState) : BoardState :=
  if s.historyIndex < (s.history.length : ℤ) - 1 then
    let i := s.historyIndex + 1
    { s with historyIndex := i, strokes := (histGet s.history i).map Stroke.clone }
  else s

/-- `clear()` (index.js lines 233-237): empty the stroke list and commit
that as a new snapshot. -/
def clear (s : BoardState) : BoardState :=
  saveToHistory { s with strokes := [] }

/-- `_onPointerDown` (index.js lines 86-102): start a fresh one-point
current stroke (the smoother reset does not touch the history state). -/
def pointerDown (s : BoardState) (tool : String) (pos : Point) (pressure size : ℝ)
    (now : ℤ) : BoardState :=
  { s with currentStroke := some (Stroke.new tool pos pressure size now) }

/-- `_onPointerMove` (index.js lines 104-143): append the smoothed point
to the current stroke, if any; `pos` is the smoothed position. -/
def pointerMove (s : BoardState) (pos : Point) (pressure : ℝ) : BoardState :=
  match s.currentStroke with
  | none => s
  | some st => { s with currentStroke := some (st.addPoint pos pressure) }

/-- `_onPointerUp` (index.js lines 145-156): commit the current stroke to
the history only when it is valid, then drop it. -/
def pointerUp (s : BoardState) : BoardState :=
  match s.currentStroke with
  | some st =>
    if st.isValid then
      let s1 := saveToHistory { s with strokes := s.strokes ++ [st] }
      { s1 with currentStroke := none }
    else { s with currentStroke := none }
  | none => { s with currentStroke := none }

/-- The state right after the DrawingBoard constructor: fields start at
`[], [], -1, null` and the constructor immediately calls
`_saveToHistory()`, recording the empty canvas as the first snapshot. -/
def initState : BoardState :=
  saveToHistory { strokes := [], history := [], historyIndex := -1, currentStroke := none }

/-- The commit path of `_onPointerUp` for a (valid) finished stroke: push
it onto the live list and snapshot. -/
def commitStroke (st : Stroke) (s : BoardState) : BoardState :=
  saveToHistory { s with strokes := s.strokes ++ [st] }

/-- States reachable through the DrawingBoard's public operations. -/
inductive Reachable : BoardState → Prop
  | init : Reachable initState
  | stepDown {s} (tool : String) (pos : Point) (pressure size : ℝ) (now : ℤ) :
      Reachable s → Reachable (pointerDown s tool pos pressure size now)
  | stepMove {s} (pos : Point) (pressure : ℝ) :
      Reachable s → Reachable (pointerMove s pos pressure)
  | stepUp {s} : Reachable s → Reachable (pointerUp s)
  | stepUndo {s} : Reachable s → Reachable (undo s)
  | stepRedo {s} : Reachable s → Reachable (redo s)
  | stepClear {s} : Reachable s → Reachable (clear s)

/-- A sequence of finished-stroke commits applied in order. -/
def applyCommits (s : BoardState) (cs : List Stroke) : BoardState :=
  cs.foldl (fun a st => commitStroke st a) s

/-- The snapshot list after committing `cs` one by one onto the empty
canvas: all prefixes of `cs`, starting with the empty snapshot. -/
def snapshotsOf (cs : List Stroke) : List (List Stroke) :=
  (List.range (cs.length + 1)).map fun k => cs.take k

/-- A snapshot (or live list) in which every stroke has at least 2 points. -/
def goodSnap (snap : List Stroke) : Prop := ∀ st ∈ snap, 2 ≤ st.points.length

/-- The history invariant: every snapshot and the live stroke list contain
only strokes with at least 2 points. -/
def HistoryInv (s : BoardState) : Prop :=
  (∀ snap ∈ s.history, goodSnap snap) ∧ goodSnap s.strokes

/-! The real-time path smoother (utils/PathSmoother.js). -/

/-- A smoothed history point `{x, y, timestamp}`. -/
structure SPoint where
  x : ℝ
  y : ℝ
  ts : ℝ

/-- PathSmoother state. -/
structure SmootherState where
  factor : ℝ
  enabled : Bool
  lastPoints : List SPoint
  historySize : ℕ
  jitterThreshold : ℝ
  accelerationThreshold : ℝ
  lastTime : ℝ
  velocities : List ℝ
  directions : List Point
  jitterCount : ℝ

/-- `array.push(v)` followed by `if (array.length > cap) array.shift()`. -/
def pushCap {α : Type} (cap : ℕ) (l : List α) (v : α) : List α :=
  let l0 := l ++ [v]
  if cap < l0.length then l0.tail else l0

/-- The most recent smoothed point, `lastPoints[lastPoints.length - 1]`
(only read when the list is nonempty). -/
def lastPt (st : SmootherState) : SPoint := st.lastPoints.getLastD ⟨0, 0, 0⟩

/-- `Math.max(1, now - this._lastTime)`. -/
def sDelta (st : SmootherState) (now : ℝ) : ℝ := max 1 (now - st.lastTime)

/-- Distance from the input point to the last smoothed point. -/
def sDist (st : SmootherState) (p : Point) : ℝ :=
  Real.sqrt ((p.x - (lastPt st).x) * (p.x - (lastPt st).x) +
    (p.y - (lastPt st).y) * (p.y - (lastPt st).y))

/-- Instantaneous velocity `dist / deltaTime` in px/ms. -/
def sVel (st : SmootherState) (p : Point) (now : ℝ) : ℝ := sDist st p / sDelta st now

/-- The velocity window after pushing the new sample (capped at 3). -/
def sVels (st : SmootherState) (p : Point) (now : ℝ) : List ℝ :=
  pushCap 3 st.velocities (sVel st p now)

/-- Mean of the velocity window. -/
def sAvgVel (st : SmootherState) (p : Point) (now : ℝ) : ℝ :=
  (sVels st p now).sum / ((sVels st p now).length : ℝ)

/-- The direction window after pushing the new unit movement direction
(only when the movement is longer than 0.001), capped at 3. -/
def sDirs (st : SmootherState) (p : Point) : List Point :=
  if 0.001 < sDist st p then
    pushCap 3 st.directions
      ⟨(p.x - (lastPt st).x) / sDist st p, (p.y - (lastPt st).y) / sDist st p⟩
  else st.directions

/-- Sum of `f` over adjacent pairs of a list (the JS `for i in 1..len-1`
accumulations). -/
def adjacentSum {α : Type} (f : α → α → ℝ) (l : List α) : ℝ :=
  ((l.zip l.tail).map fun ab => f ab.1 ab.2).sum

/-- Mean direction-change score over the direction window. -/
def sDirChange (st : SmootherState) (p : Point) : ℝ :=
  let ds := sDirs st p
  if 2 ≤ ds.length then
    adjacentSum (fun a b => 1 - (a.x * b.x + a.y * b.y)) ds / ((ds.length : ℝ) - 1)
  else 0

/-- Mean velocity-variation score over the velocity window; a zero
previous velocity is replaced by 0.001 in the ratio. -/
def sVelVar (st : SmootherState) (p : Point) (now : ℝ) : ℝ :=
  let vs := sVels st p now
  if 2 ≤ vs.length then
    adjacentSum (fun a b => |1 - b / jsOrNum a 0.001|) vs / ((vs.length : ℝ) - 1)
  else 0

/-- Jitter flag: a small movement with either a large direction-change
score or a large velocity-variation score. -/
def sIsJitter (st : SmootherState) (p : Point) (now : ℝ) : Prop :=
  sDist st p < st.jitterThreshold ∧
    (0.8 < sDirChange st p ∨ st.accelerationThreshold < sVelVar st p now)

open scoped Classical in
/-- The jitter counter after this sample: incremented on jitter, decayed
by 0.5 (floored at 0) otherwise. -/
def sJC (st : SmootherState) (p : Point) (now : ℝ) : ℝ :=
  if sIsJitter st p now then st.jitterCount + 1 else max 0 (st.jitterCount - 0.5)

/-- An exponential blend `last*f + point*(1-f)` stamped with `now`. -/
def blendPt (last : SPoint) (p : Point) (f now : ℝ) : SPoint :=
  ⟨last.x * f + p.x * (1 - f), last.y * f + p.y * (1 - f), now⟩

open scoped Classical in
/-- `PathSmoother.smooth(point)` at wall-clock time `now`: the returned
point and the updated smoother state (utils/PathSmoother.js lines
61-216). -/
def smooth (st : SmootherState) (p : Point) (now : ℝ) : Point × SmootherState :=
  if st.enabled = false then (p, st)
  else if st.lastPoints.length = 0 then
    (p, { st with lastPoints := st.lastPoints ++ [⟨p.x, p.y, now⟩], lastTime := now })
  else if 2 ≤ st.lastPoints.length then
    let vs := sVels st p now
    let dirs := sDirs st p
    let jc := sJC st p now
    if 0.5 < sAvgVel st p now ∧ ¬ sIsJitter st p now then
      let dynamicFactor := max 0.1 (st.factor - sAvgVel st p now * 0.3)
      let sp := blendPt (lastPt st) p dynamicFactor now
      (⟨sp.x, sp.y⟩,
       { st with lastPoints := pushCap st.historySize st.lastPoints sp, lastTime := now,
                 velocities := vs, directions := dirs, jitterCount := jc })
    else if sIsJitter st p now ∨ 1 < jc then
      let jitterStrength := min 0.9 (0.6 + jc * 0.1)
      let antiJitterFactor := min 0.9 (st.factor + jitterStrength * 0.3)
      let sp := blendPt (lastPt st) p antiJitterFactor now
      (⟨sp.x, sp.y⟩,
       { st with lastPoints := pushCap st.historySize st.lastPoints sp, lastTime := now,
                 velocities := vs, directions := dirs, jitterCount := jc })
    else
      let sp := blendPt (lastPt st) p st.factor now
      (⟨sp.x, sp.y⟩,
       { st with lastPoints := pushCap st.historySize st.lastPoints sp, lastTime := now,
                 velocities := vs, directions := dirs, jitterCount := jc })
  else
    let sp := blendPt (lastPt st) p st.factor now
    (⟨sp.x, sp.y⟩,
     { st with lastPoints := pushCap st.historySize st.lastPoints sp, lastTime := now })

/-- The blending factor asserted by the claim for the jitter branch:
`min(0.9, factor + (0.6 + counter*0.1)*0.3)`, with no inner clamp on the
jitter strength. -/
def specJitterFactor (factor counter : ℝ) : ℝ :=
  min 0.9 (factor + (0.6 + counter * 0.1) * 0.3)

/-- A concrete smoother state: base factor 0.5, two history points at the
origin, an accumulated jitter count of 4, a previous direction pointing
left, and two slow velocity samples. -/
def stC5 : SmootherState :=
  { factor := 0.5
    enabled := true
    lastPoints := [⟨0, 0, 0⟩, ⟨0, 0, 10⟩]
    historySize := 6
    jitterThreshold := 2
    accelerationThreshold := 0.3
    lastTime := 10
    velocities := [0.1, 0.1]
    directions := [⟨-1, 0⟩]
    jitterCount := 4 }

/-- The next raw input point fed to the smoother in the concrete run. -/
def pC5 : Point := ⟨1, 0⟩

/-! The adaptive sampler and pressure resampler (renderer/StrokeUtils.js). -/

/-- Loop body of `StrokeUtils.sampleKeyPoints` for interior index `i`; the
accumulator carries the kept points and the index of the last kept
point. -/
def sampleStep (points : List Point) (angleThreshold distanceThreshold maxSkipPoints : ℝ)
    (acc : List Point × ℕ) (i : ℕ) : List Point × ℕ :=
  let prev := pget points acc.2
  let curr := pget points i
  let next := pget points (i + 1)
  let dx := curr.x - prev.x
  let dy := curr.y - prev.y
  let dist2 := dx * dx + dy * dy
  let v2x := next.x - curr.x
  let v2y := next.y - curr.y
  let len1 := jsOrNum (dx * dx + dy * dy) 0.001
  let len2 := jsOrNum (v2x * v2x + v2y * v2y) 0.001
  let dotp := (dx * v2x + dy * v2y) / Real.sqrt (len1 * len2)
  let angleChange := Real.arccos (max (-1) (min 1 dotp))
  let adaptiveThreshold := distanceThreshold * (0.2 + 0.8 * min 1 ((1 + dotp) / 2))
  if angleThreshold < angleChange ∨ adaptiveThreshold * adaptiveThreshold < dist2 ∨
      maxSkipPoints < (i : ℝ) - (acc.2 : ℝ) then
    (acc.1 ++ [curr], i)
  else acc

/-- `StrokeUtils.sampleKeyPoints(points, thresholds)` (StrokeUtils.js
lines 59-101): keep the first point, each interior point passing the
angle/adaptive-distance/skip-cap test, and the last point. -/
def sampleKeyPoints (points : List Point)
    (angleThreshold distanceThreshold maxSkipPoints : ℝ) : List Point :=
  if points.length ≤ 3 then points
  else
    let r := (List.range' 1 (points.length - 2)).foldl
      (sampleStep points angleThreshold distanceThreshold maxSkipPoints)
      ([pget points 0], 0)
    r.1 ++ [pget points (points.length - 1)]

/-- JS `dist2 < minDist` where `minDist` starts at `Infinity` (modelled as
`none`: every finite distance beats it). -/
def lessOpt (x : ℝ) (m : Option ℝ) : Prop :=
  match m with
  | none => True
  | some v => x < v

open scoped Classical in
/-- The bounded nearest-neighbor search of `StrokeUtils.resamplePressures`
over original indices `start..endI`, seeded at `lastFoundIndex`. -/
def closestIn (originalPoints : List Point) (p : Point) (start endI seed : ℕ) : ℕ :=
  ((List.range' start (endI + 1 - start)).foldl
    (fun acc i =>
      let q := pget originalPoints i
      let dist2 := (p.x - q.x) * (p.x - q.x) + (p.y - q.y) * (p.y - q.y)
      if lessOpt dist2 acc.1 then (some dist2, i) else acc)
    ((none : Option ℝ), seed)).2

/-- `StrokeUtils.resamplePressures(pressures, originalPoints,
sampledPoints)` (StrokeUtils.js lines 106-142): on a length mismatch fall
back to the constant neutral pressure 0.5; otherwise take the pressure of
the nearest original point found in a sliding window. -/
def resamplePressures (pressures : List ℝ) (originalPoints sampledPoints : List Point) :
    List ℝ :=
  if originalPoints.length ≠ pressures.length then
    sampledPoints.map fun _ => 0.5
  else
    let windowSize := min 20 ((originalPoints.length + 3) / 4)
    (sampledPoints.foldl
      (fun acc p =>
        let start := acc.2 - windowSize
        let endI := min (originalPoints.length - 1) (acc.2 + windowSize)
        let ci := closestIn originalPoints p start endI acc.2
        (acc.1 ++ [pressures.getD ci 0.5], ci))
      (([] : List ℝ), 0)).1

/-! The FPS hysteresis governor: the `onFpsChange` callback installed in
`DrawingBoard._initRendererAndUI` (index.js lines 350-371). -/

/-- The quality-mode state the callback reads and writes. -/
structure QualityState where
  lowPerformance : Bool
  rendererLowFPS : Bool
  previewLowFPS : Bool
  rendererSmoothSteps : ℕ
  previewSmoothSteps : ℕ

/-- The `onFpsChange` callback: degrade below 28 FPS when not already
degraded, restore above 45 FPS when degraded, otherwise leave the state
untouched. -/
def onFpsChange (st : QualityState) (fps : ℝ) : QualityState :=
  if fps < 28 ∧ st.lowPerformance = false then
    { lowPerformance := true, rendererLowFPS := true, previewLowFPS := true,
      rendererSmoothSteps := 2, previewSmoothSteps := 2 }
  else if 45 < fps ∧ st.lowPerformance = true then
    { lowPerformance := false, rendererLowFPS := false, previewLowFPS := false,
      rendererSmoothSteps := 4, previewSmoothSteps := 4 }
  else st

/-! Theorems. -/

theorem jsLenP_pos (v : Point) : 0 < jsLenP v := by
  unfold jsLenP
  by_cases h : Real.sqrt (v.x * v.x + v.y * v.y) = 0
  · simp [h]; norm_num
  · simp only [h, if_false]
    exact lt_of_le_of_ne (Real.sqrt_nonneg _) (Ne.symm h)

theorem Stroke.clone_eq (s : Stroke) : s.clone = s := rfl

theorem map_clone (l : List Stroke) : l.map Stroke.clone = l := by
  simp [show Stroke.clone = id from funext Stroke.clone_eq]


/-- C6: for every input to `getMomentumControlPoint`,
`getCubicMomentumControlPoints` and `getFinalSegmentControlPoints`,
including coincident consecutive points, every length used for
normalization is strictly positive (the epsilon 0.001 is substituted when
the length would be zero), so no returned control-point coordinate arises
from a division by zero; in particular a fully coincident momentum window
returns its middle point, a well-defined finite value. -/
theorem curve_denominators_positive (p0 p1 p2 p3 prev curr next q : Point)
    (mf : Option ℝ) :
    (∀ d ∈ momentumDenoms p0 p1 p2, 0 < d) ∧
    (∀ d ∈ cubicDenoms p0 p1 p2 p3, 0 < d) ∧
    (∀ d ∈ finalDenoms prev curr next, 0 < d) ∧
    getMomentumControlPoint q q q mf = q := by
  refine ⟨?_, ?_, ?_, ?_⟩
  · intro d hd
    rcases (by simpa [momentumDenoms] using hd) with h | h | h <;>
      (subst h; exact jsLenP_pos _)
  · intro d hd
    rcases (by simpa [cubicDenoms] using hd) with h | h | h | h | h <;>
      (subst h; exact jsLenP_pos _)
  · intro d hd
    rcases (by simpa [finalDenoms] using hd) with h | h | h <;>
      (subst h; exact jsLenP_pos _)
  · have hz : vsub q q = ⟨0, 0⟩ := by simp [vsub]
    have hlen : jsLenP ⟨0, 0⟩ = 0.001 := by
      simp [jsLenP]
    have hu : unitOf (vsub q q) = ⟨0, 0⟩ := by
      rw [hz]; simp [unitOf, hlen]
    have hblend : momentumBlend q q q = ⟨0, 0⟩ := by
      simp [momentumBlend, hu]
    ext
    · simp [getMomentumControlPoint, hblend, hu, hlen]
    · simp [getMomentumControlPoint, hblend, hu, hlen]

/-- C8: the quality mode changes only at the hysteresis edges: an FPS
sample below 28 in normal mode degrades, a sample above 45 in degraded
mode restores, and any sample in the closed band [28, 45] leaves the
whole quality state unchanged. -/
theorem fps_hysteresis (st : QualityState) (fps : ℝ) :
    (fps < 28 → st.lowPerformance = false → (onFpsChange st fps).lowPerformance = true) ∧
    (45 < fps → st.lowPerformance = true → (onFpsChange st fps).lowPerformance = false) ∧
    (28 ≤ fps → fps ≤ 45 → onFpsChange st fps = st) := by
  refine ⟨?_, ?_, ?_⟩
  · intro h1 h2
    simp [onFpsChange, h1, h2]
  · intro h1 h2
    have hn : ¬ fps < 28 := by linarith
    simp [onFpsChange, hn, h1, h2]
  · intro h1 h2
    have hn : ¬ fps < 28 := by linarith
    have hn2 : ¬ 45 < fps := by linarith
    simp [onFpsChange, hn, hn2]

theorem fps_hysteresis_witness :
    ((27 : ℝ) < 28 ∧ (45 : ℝ) < 46 ∧ (28 : ℝ) ≤ 30 ∧ (30 : ℝ) ≤ 45) ∧
    (onFpsChange ⟨false, false, false, 4, 4⟩ 27).lowPerformance = true ∧
    (onFpsChange ⟨true, true, true, 2, 2⟩ 46).lowPerformance = false ∧
    onFpsChange ⟨false, false, false, 4, 4⟩ 30 = ⟨false, false, false, 4, 4⟩ :=
  ⟨⟨by norm_num, by norm_num, by norm_num, by norm_num⟩,
   (fps_hysteresis ⟨false, false, false, 4, 4⟩ 27).1 (by norm_num) rfl,
   (fps_hysteresis ⟨true, true, true, 2, 2⟩ 46).2.1 (by norm_num) rfl,
   (fps_hysteresis ⟨false, false, false, 4, 4⟩ 30).2.2 (by norm_num) (by norm_num)⟩

/-- C9: when `resamplePressures` is given a pressures array and an
originalPoints array of different lengths it returns, without any other
computation, a list of the same length as `sampledPoints` in which every
entry is the neutral pressure 0.5. -/
theorem resample_mismatch_neutral (pressures : List ℝ)
    (originalPoints sampledPoints : List Point)
    (h : originalPoints.length ≠ pressures.length) :
    resamplePressures pressures originalPoints sampledPoints =
      sampledPoints.map (fun _ => 0.5) ∧
    (resamplePressures pressures originalPoints sampledPoints).length =
      sampledPoints.length ∧
    ∀ x ∈ resamplePressures pressures originalPoints sampledPoints, x = 0.5 := by
  have he : resamplePressures pressures originalPoints sampledPoints =
      sampledPoints.map (fun _ => 0.5) := by
    simp [resamplePressures, h]
  refine ⟨he, ?_, ?_⟩
  · rw [he]; simp
  · intro x hx
    rw [he] at hx
    simp at hx
    exact hx.2

theorem resample_mismatch_neutral_witness :
    ([(⟨0, 0⟩ : Point)].length ≠ ([] : List ℝ).length) ∧
    (resamplePressures [] [⟨0, 0⟩] [⟨1, 1⟩] = [(⟨1, 1⟩ : Point)].map (fun _ => 0.5) ∧
     (resamplePressures [] [⟨0, 0⟩] [⟨1, 1⟩]).length = [(⟨1, 1⟩ : Point)].length ∧
     ∀ x ∈ resamplePressures [] [⟨0, 0⟩] [⟨1, 1⟩], x = 0.5) :=
  ⟨by decide, resample_mismatch_neutral [] [⟨0, 0⟩] [⟨1, 1⟩] (by decide)⟩

/-- C10: the renderer's per-segment width lookup substitutes 0.5 for a
zero (or missing) recorded pressure, so such a segment is drawn with width
`baseSize * (0.5 + 0.5) = baseSize`; for every pressure in (0, 1] the
width is `baseSize * (0.5 + pressure)`, but at pressure 0 it is not
`baseSize * (0.5 + 0)` (when `baseSize ≠ 0`). -/
theorem segment_width_pressure (baseSize : ℝ) (prs : List ℝ) (i : ℕ) :
    ((prs[i]? = some 0 ∨ prs[i]? = none) →
      segWidth baseSize prs i = baseSize * (0.5 + 0.5)) ∧
    (∀ p : ℝ, prs[i]? = some p → 0 < p → p ≤ 1 →
      segWidth baseSize prs i = baseSize * (0.5 + p)) ∧
    (prs[i]? = some 0 → baseSize ≠ 0 →
      segWidth baseSize prs i ≠ baseSize * (0.5 + 0)) := by
  refine ⟨?_, ?_, ?_⟩
  · rintro (h | h) <;> simp [segWidth, jsPressureOr, h, jsOrNum]
  · intro p hp hpos _
    have hne : p ≠ 0 := ne_of_gt hpos
    simp [segWidth, jsPressureOr, hp, jsOrNum, hne]
  · intro h hbs
    have h1 : segWidth baseSize prs i = baseSize * 1 := by
      simp [segWidth, jsPressureOr, h, jsOrNum]
      ring
    rw [h1]
    intro heq
    apply hbs
    nlinarith

theorem goodSnap_histGet {l : List (List Stroke)} (h : ∀ snap ∈ l, goodSnap snap)
    (i : ℤ) : goodSnap (histGet l i) := by
  unfold histGet
  rcases h' : l[i.toNat]? with _ | snap
  · rw [List.getD_eq_getElem?_getD, h']
    intro st hst
    cases hst
  · rw [List.getD_eq_getElem?_getD, h']
    exact h snap (List.getElem?_mem h')

theorem jsSliceTo_subset (l : List (List Stroke)) (e : ℤ) :
    ∀ snap ∈ jsSliceTo l e, snap ∈ l := by
  intro snap hs
  unfold jsSliceTo at hs
  split at hs <;> exact List.take_subset _ _ hs

theorem saveToHistory_inv {s : BoardState} (h : HistoryInv s) :
    HistoryInv (saveToHistory s) := by
  constructor
  · intro snap hsnap
    simp only [saveToHistory] at hsnap
    rcases List.mem_append.1 hsnap with h1 | h1
    · split at h1
      · exact h.1 snap (jsSliceTo_subset _ _ snap h1)
      · exact h.1 snap h1
    · rw [List.mem_singleton.1 h1, map_clone]
      exact h.2
  · exact h.2

theorem undo_inv {s : BoardState} (h : HistoryInv s) : HistoryInv (undo s) := by
  unfold undo
  split
  · refine ⟨h.1, ?_⟩
    show goodSnap ((histGet s.history (s.historyIndex - 1)).map Stroke.clone)
    rw [map_clone]
    exact goodSnap_histGet h.1 _
  · exact h

theorem redo_inv {s : BoardState} (h : HistoryInv s) : HistoryInv (redo s) := by
  unfold redo
  split
  · refine ⟨h.1, ?_⟩
    show goodSnap ((histGet s.history (s.historyIndex + 1)).map Stroke.clone)
    rw [map_clone]
    exact goodSnap_histGet h.1 _
  · exact h

theorem pointerUp_inv {s : BoardState} (h : HistoryInv s) : HistoryInv (pointerUp s) := by
  unfold pointerUp
  rcases s.currentStroke with _ | st
  · exact h
  · by_cases hv : st.isValid
    · simp only [hv, if_true]
      have h2 : goodSnap (s.strokes ++ [st]) := by
        intro a ha
        rcases List.mem_append.1 ha with h' | h'
        · exact h.2 a h'
        · rw [List.mem_singleton.1 h']
          simpa [Stroke.isValid] using hv
      exact saveToHistory_inv ⟨h.1, h2⟩
    · simp only [hv, if_false]
      exact h

theorem initState_inv : HistoryInv initState := by
  constructor
  · intro snap hsnap
    have : initState.history = [[]] := rfl
    rw [this] at hsnap
    rw [List.mem_singleton.1 hsnap]
    intro st hst
    cases hst
  · intro st hst
    cases hst

theorem pointerMove_fields (s : BoardState) (pos : Point) (pressure : ℝ) :
    (pointerMove s pos pressure).history = s.history ∧
    (pointerMove s pos pressure).strokes = s.strokes := by
  unfold pointerMove
  rcases s.currentStroke with _ | st <;> exact ⟨rfl, rfl⟩

theorem pointerMove_inv {s : BoardState} {pos : Point} {pressure : ℝ}
    (h : HistoryInv s) : HistoryInv (pointerMove s pos pressure) := by
  have hf := pointerMove_fields s pos pressure
  unfold HistoryInv at h ⊢
  rw [hf.1, hf.2]
  exact h

theorem reachable_inv {s : BoardState} (h : Reachable s) : HistoryInv s := by
  induction h with
  | init => exact initState_inv
  | stepDown tool pos pressure size now _ ih => exact ih
  | stepMove pos pressure _ ih => exact pointerMove_inv ih
  | stepUp _ ih => exact pointerUp_inv ih
  | stepUndo _ ih => exact undo_inv ih
  | stepRedo _ ih => exact redo_inv ih
  | stepClear _ ih =>
    exact saveToHistory_inv ⟨ih.1, by intro a ha; cases ha⟩

/-- C2: in every reachable state no history snapshot contains a stroke
with fewer than 2 points; `isValid` is false exactly when
`points.length < 2`; and pointer-up on an invalid current stroke discards
it without touching the history or the live stroke list. -/
theorem no_short_stroke_in_history (s : BoardState) (h : Reachable s) :
    (∀ snap ∈ s.history, ∀ st ∈ snap, ¬ st.points.length < 2) ∧
    (∀ st : Stroke, st.isValid = false ↔ st.points.length < 2) ∧
    (∀ st : Stroke, s.currentStroke = some st → st.isValid = false →
      (pointerUp s).history = s.history ∧ (pointerUp s).strokes = s.strokes) := by
  have hi := reachable_inv h
  refine ⟨?_, ?_, ?_⟩
  · intro snap hs st hst
    have := hi.1 snap hs st hst
    omega
  · intro st
    simp [Stroke.isValid]
  · intro st hc hv
    unfold pointerUp
    rw [hc]
    have : st.isValid = false := hv
    simp [this]

theorem no_short_stroke_in_history_witness :
    Reachable initState ∧
    ((∀ snap ∈ initState.history, ∀ st ∈ snap, ¬ st.points.length < 2) ∧
     (∀ st : Stroke, st.isValid = false ↔ st.points.length < 2) ∧
     (∀ st : Stroke, initState.currentStroke = some st → st.isValid = false →
       (pointerUp initState).history = initState.history ∧
       (pointerUp initState).strokes = initState.strokes)) :=
  ⟨Reachable.init, no_short_stroke_in_history initState Reachable.init⟩

theorem saveToHistory_history (s : BoardState) :
    (saveToHistory s).history =
      jsSliceTo s.history (s.historyIndex + 1) ++ [s.strokes.map Stroke.clone] := by
  simp only [saveToHistory]
  by_cases hlt : s.historyIndex < (s.history.length : ℤ) - 1
  · rw [if_pos hlt]
  · rw [if_neg hlt]
    unfold jsSliceTo
    rw [if_neg (by omega)]
    rw [List.take_of_length_le (by omega)]

theorem saveToHistory_historyIndex (s : BoardState) :
    (saveToHistory s).historyIndex = ((saveToHistory s).history.length : ℤ) - 1 := rfl

theorem redo_saveToHistory (s : BoardState) :
    redo (saveToHistory s) = saveToHistory s := by
  unfold redo
  rw [if_neg]
  rw [saveToHistory_historyIndex s]
  exact lt_irrefl _

/-- C3: a commit after an undo truncates every snapshot after the cursor
before appending the new snapshot, leaves the cursor on the new last
snapshot, and makes an immediately following redo a no-op. -/
theorem commit_truncates_and_redo_noop (s : BoardState) (st : Stroke) :
    (commitStroke st (undo s)).history =
      jsSliceTo (undo s).history ((undo s).historyIndex + 1) ++
        [((undo s).strokes ++ [st]).map Stroke.clone] ∧
    (commitStroke st (undo s)).historyIndex =
      ((commitStroke st (undo s)).history.length : ℤ) - 1 ∧
    redo (commitStroke st (undo s)) = commitStroke st (undo s) :=
  ⟨saveToHistory_history _, saveToHistory_historyIndex _, redo_saveToHistory _⟩

theorem segment_width_pressure_witness :
    (([0, 0.75] : List ℝ)[0]? = some (0 : ℝ) ∨ ([0, 0.75] : List ℝ)[0]? = none) ∧
    segWidth 2 [0, 0.75] 0 = 2 * (0.5 + 0.5) ∧
    (([0, 0.75] : List ℝ)[1]? = some (0.75 : ℝ) ∧ (0 : ℝ) < 0.75 ∧ (0.75 : ℝ) ≤ 1) ∧
    segWidth 2 [0, 0.75] 1 = 2 * (0.5 + 0.75) :=
  ⟨Or.inl rfl,
   (segment_width_pressure 2 [0, 0.75] 0).1 (Or.inl rfl),
   ⟨rfl, by norm_num, by norm_num⟩,
   (segment_width_pressure 2 [0, 0.75] 1).2.1 0.75 rfl (by norm_num) (by norm_num)⟩

theorem snapshotsOf_length (cs : List Stroke) :
    (snapshotsOf cs).length = cs.length + 1 := by
  simp [snapshotsOf]

theorem snapshotsOf_append (cs : List Stroke) (c : Stroke) :
    snapshotsOf (cs ++ [c]) = snapshotsOf cs ++ [cs ++ [c]] := by
  unfold snapshotsOf
  rw [List.length_append, List.length_singleton, List.range_succ, List.map_append]
  congr 1
  · apply List.map_congr_left
    intro k hk
    rw [List.mem_range] at hk
    exact List.take_append_of_le_length (by omega)
  · simp

theorem histGet_snapshotsOf (cs : List Stroke) (k : ℕ) (hk : k ≤ cs.length) :
    histGet (snapshotsOf cs) (k : ℤ) = cs.take k := by
  unfold histGet snapshotsOf
  have h1 : ((k : ℤ)).toNat = k := Int.toNat_natCast k
  rw [h1, List.getD_eq_getElem?_getD, List.getElem?_map, List.getElem?_range (by omega)]
  rfl

theorem applyCommits_char (cs : List Stroke) :
    applyCommits initState cs =
      ⟨cs, snapshotsOf cs, (cs.length : ℤ), none⟩ := by
  induction cs using List.reverseRecOn with
  | nil =>
    show initState = _
    have h1 : snapshotsOf [] = [[]] := rfl
    rw [h1]
    rfl
  | append_singleton cs c ih =>
    unfold applyCommits at ih ⊢
    rw [List.foldl_append, ih, List.foldl_cons, List.foldl_nil]
    unfold commitStroke saveToHistory
    have hcond : ¬ ((cs.length : ℤ) < ((snapshotsOf cs).length : ℤ) - 1) := by
      rw [snapshotsOf_length]
      push_cast
      omega
    simp only [hcond, if_false, map_clone]
    rw [← snapshotsOf_append]
    have hlen : ((snapshotsOf (cs ++ [c])).length : ℤ) - 1 = ((cs ++ [c]).length : ℤ) := by
      rw [snapshotsOf_length]
      push_cast
      ring
    rw [hlen]

theorem undo_chain (cs : List Stroke) :
    ∀ k, k ≤ cs.length →
      undo^[k] (⟨cs, snapshotsOf cs, (cs.length : ℤ), none⟩ : BoardState) =
        ⟨cs.take (cs.length - k), snapshotsOf cs, ((cs.length - k : ℕ) : ℤ), none⟩ := by
  intro k
  induction k with
  | zero =>
    intro _
    simp [List.take_length]
  | succ k ih =>
    intro hk
    rw [Function.iterate_succ_apply', ih (by omega)]
    unfold undo
    have hc1 : 0 < (snapshotsOf cs).length := by rw [snapshotsOf_length]; omega
    have hc2 : (0 : ℤ) < ((cs.length - k : ℕ) : ℤ) := by
      have : 0 < cs.length - k := by omega
      exact_mod_cast this
    rw [if_pos ⟨hc1, hc2⟩]
    have hidx : ((cs.length - k : ℕ) : ℤ) - 1 = ((cs.length - (k + 1) : ℕ) : ℤ) := by
      omega
    simp only [hidx]
    rw [histGet_snapshotsOf cs (cs.length - (k + 1)) (by omega), map_clone]

theorem redo_chain (cs : List Stroke) :
    ∀ k, k ≤ cs.length →
      redo^[k] (⟨[], snapshotsOf cs, 0, none⟩ : BoardState) =
        ⟨cs.take k, snapshotsOf cs, (k : ℤ), none⟩ := by
  intro k
  induction k with
  | zero =>
    intro _
    simp
  | succ k ih =>
    intro hk
    rw [Function.iterate_succ_apply', ih (by omega)]
    unfold redo
    have hc : (k : ℤ) < ((snapshotsOf cs).length : ℤ) - 1 := by
      rw [snapshotsOf_length]
      push_cast
      omega
    rw [if_pos hc]
    have hidx : (k : ℤ) + 1 = ((k + 1 : ℕ) : ℤ) := by omega
    simp only [hidx]
    rw [histGet_snapshotsOf cs (k + 1) (by omega), map_clone]

/-- C1: committing `n ≥ 1` strokes from the initial empty-canvas snapshot,
then undoing `n` times and redoing `n` times, restores the whole board
state (stroke list equal value-by-value) with the history cursor back at
the last snapshot. -/
theorem undo_redo_roundtrip (cs : List Stroke) (_h : 0 < cs.length) :
    redo^[cs.length] (undo^[cs.length] (applyCommits initState cs)) =
      applyCommits initState cs ∧
    (applyCommits initState cs).historyIndex =
      ((applyCommits initState cs).history.length : ℤ) - 1 := by
  rw [applyCommits_char]
  constructor
  · rw [undo_chain cs cs.length le_rfl]
    simp only [Nat.sub_self, Nat.cast_zero, List.take_zero]
    rw [redo_chain cs cs.length le_rfl]
    simp [List.take_length]
  · rw [snapshotsOf_length]
    push_cast
    ring

theorem undo_redo_roundtrip_witness :
    0 < [Stroke.new "pen" ⟨0, 0⟩ 0.5 3 0,
         Stroke.new "pen" ⟨1, 1⟩ 0.6 3 1].length ∧
    (redo^[2] (undo^[2] (applyCommits initState
        [Stroke.new "pen" ⟨0, 0⟩ 0.5 3 0, Stroke.new "pen" ⟨1, 1⟩ 0.6 3 1])) =
      applyCommits initState
        [Stroke.new "pen" ⟨0, 0⟩ 0.5 3 0, Stroke.new "pen" ⟨1, 1⟩ 0.6 3 1] ∧
     (applyCommits initState
        [Stroke.new "pen" ⟨0, 0⟩ 0.5 3 0, Stroke.new "pen" ⟨1, 1⟩ 0.6 3 1]).historyIndex =
      ((applyCommits initState
        [Stroke.new "pen" ⟨0, 0⟩ 0.5 3 0, Stroke.new "pen" ⟨1, 1⟩ 0.6 3 1]).history.length : ℤ) - 1) :=
  ⟨by decide,
   undo_redo_roundtrip
     [Stroke.new "pen" ⟨0, 0⟩ 0.5 3 0, Stroke.new "pen" ⟨1, 1⟩ 0.6 3 1] (by decide)⟩

theorem sampleStep_cases (points : List Point) (a d m : ℝ)
    (acc : List Point × ℕ) (i : ℕ) :
    sampleStep points a d m acc i = (acc.1 ++ [pget points i], i) ∨
    sampleStep points a d m acc i = acc := by
  unfold sampleStep
  dsimp only
  split
  · exact Or.inl rfl
  · exact Or.inr rfl

theorem foldl_sampleStep_props (points : List Point)
    (a d m : ℝ) :
    ∀ (l : List ℕ) (acc : List Point × ℕ), acc.1 ≠ [] →
      (l.foldl (sampleStep points a d m) acc).1.head? = acc.1.head? ∧
      (l.foldl (sampleStep points a d m) acc).1 ≠ [] ∧
      (l.foldl (sampleStep points a d m) acc).1.length ≤ acc.1.length + l.length := by
  intro l
  induction l with
  | nil =>
    intro acc h
    exact ⟨rfl, h, by simp⟩
  | cons i l ih =>
    intro acc h
    rw [List.foldl_cons]
    have hstep : (sampleStep points a d m acc i).1.head? = acc.1.head? ∧
        (sampleStep points a d m acc i).1 ≠ [] ∧
        (sampleStep points a d m acc i).1.length ≤ acc.1.length + 1 := by
      rcases sampleStep_cases points a d m acc i with hc | hc <;> rw [hc]
      · refine ⟨?_, by simp, by simp⟩
        rcases acc with ⟨accl, last⟩
        cases accl with
        | nil => exact absurd rfl h
        | cons p t => simp
      · exact ⟨rfl, h, by omega⟩
    obtain ⟨h1, h2, h3⟩ := hstep
    obtain ⟨g1, g2, g3⟩ := ih _ h2
    refine ⟨g1.trans h1, g2, ?_⟩
    calc (l.foldl (sampleStep points a d m) (sampleStep points a d m acc i)).1.length
        ≤ (sampleStep points a d m acc i).1.length + l.length := g3
      _ ≤ acc.1.length + 1 + l.length := by omega
      _ = acc.1.length + (i :: l).length := by simp; omega

theorem pget_head? {l : List Point} (h : 0 < l.length) :
    l.head? = some (pget l 0) := by
  cases l with
  | nil => simp at h
  | cons p t => simp [pget]

theorem pget_getLast? {l : List Point} (h : 0 < l.length) :
    l.getLast? = some (pget l (l.length - 1)) := by
  rw [List.getLast?_eq_getElem?]
  rw [List.getElem?_eq_getElem (by omega)]
  congr 1
  rw [pget, List.getD_eq_getElem?_getD, List.getElem?_eq_getElem (by omega)]
  rfl

/-- C7: for every input of at least 2 points and any angle, distance and
skip thresholds, `sampleKeyPoints` returns a list that starts with the
input's first point, ends with the input's last point, is no longer than
the input, and has at least 2 points. -/
theorem sampler_endpoints (points : List Point) (a d m : ℝ)
    (h : 2 ≤ points.length) :
    (sampleKeyPoints points a d m).head? = points.head? ∧
    (sampleKeyPoints points a d m).getLast? = points.getLast? ∧
    (sampleKeyPoints points a d m).length ≤ points.length ∧
    2 ≤ (sampleKeyPoints points a d m).length := by
  unfold sampleKeyPoints
  by_cases hle : points.length ≤ 3
  · rw [if_pos hle]
    exact ⟨rfl, rfl, le_rfl, h⟩
  · rw [if_neg hle]
    obtain ⟨h1, h2, h3⟩ := foldl_sampleStep_props points a d m
      (List.range' 1 (points.length - 2)) ([pget points 0], 0) (by simp)
    have hb : (([pget points 0], (0 : ℕ)) : List Point × ℕ).1.length = 1 := rfl
    have hrange : (List.range' 1 (points.length - 2)).length = points.length - 2 := by
      simp
    rw [hb, hrange] at h3
    refine ⟨?_, ?_, ?_, ?_⟩
    · rcases hcons : ((List.range' 1 (points.length - 2)).foldl
          (sampleStep points a d m) ([pget points 0], 0)).1 with _ | ⟨p, t⟩
      · exact absurd hcons h2
      · rw [hcons] at h1
        simp only [List.head?_cons] at h1
        simp only [hcons, List.cons_append, List.head?_cons]
        rw [h1]
        exact (pget_head? (by omega)).symm
    · rw [List.getLast?_concat]
      rw [pget_getLast? (l := points) (by omega)]
    · rw [List.length_append]
      simp only [List.length_singleton]
      omega
    · rw [List.length_append]
      have hpos : 0 < ((List.range' 1 (points.length - 2)).foldl
          (sampleStep points a d m) ([pget points 0], 0)).1.length :=
        List.length_pos.2 h2
      simp only [List.length_singleton]
      omega

theorem sampler_endpoints_witness :
    2 ≤ ([⟨0, 0⟩, ⟨1, 0⟩] : List Point).length ∧
    ((sampleKeyPoints [⟨0, 0⟩, ⟨1, 0⟩] 0.06 6 4).head? =
        ([⟨0, 0⟩, ⟨1, 0⟩] : List Point).head? ∧
     (sampleKeyPoints [⟨0, 0⟩, ⟨1, 0⟩] 0.06 6 4).getLast? =
        ([⟨0, 0⟩, ⟨1, 0⟩] : List Point).getLast? ∧
     (sampleKeyPoints [⟨0, 0⟩, ⟨1, 0⟩] 0.06 6 4).length ≤
        ([⟨0, 0⟩, ⟨1, 0⟩] : List Point).length ∧
     2 ≤ (sampleKeyPoints [⟨0, 0⟩, ⟨1, 0⟩] 0.06 6 4).length) :=
  ⟨by decide, sampler_endpoints [⟨0, 0⟩, ⟨1, 0⟩] 0.06 6 4 (by decide)⟩

theorem walkAux_head_idx (pts : List Point) (prs : List ℝ) (bs mf cf : ℝ)
    (i : ℕ) (s : Step) (l : List Step)
    (h : walkAux pts prs bs mf cf i = s :: l) : s.idx = i := by
  unfold walkAux at h
  split at h
  · dsimp only at h
    split at h
    · cases h; rfl
    · split at h
      · cases h; rfl
      · split at h
        · cases h; rfl
        · split at h
          · cases h; rfl
          · cases h; rfl
  · exact absurd h (by simp)

theorem chain2_cons (pts : List Point) (prs : List ℝ) (bs mf cf : ℝ) (i : ℕ)
    (st : Step) (hst : st.idx = i)
    (hch : List.Chain' (fun a b => b.idx = a.idx + 2) (walkAux pts prs bs mf cf (i + 2))) :
    List.Chain' (fun a b => b.idx = a.idx + 2)
      (st :: walkAux pts prs bs mf cf (i + 2)) := by
  refine List.chain'_cons'.2 ⟨?_, hch⟩
  intro b hb
  rcases hcons : walkAux pts prs bs mf cf (i + 2) with _ | ⟨s, l⟩
  · rw [hcons] at hb
    simp at hb
  · rw [hcons] at hb
    simp at hb
    subst hb
    rw [hst]
    exact walkAux_head_idx pts prs bs mf cf (i + 2) s l hcons

theorem walkAux_chain2 (pts : List Point) (prs : List ℝ) (bs mf cf : ℝ) :
    ∀ i, List.Chain' (fun a b => b.idx = a.idx + 2) (walkAux pts prs bs mf cf i) := by
  have key : ∀ n i, pts.length - i ≤ n →
      List.Chain' (fun a b => b.idx = a.idx + 2) (walkAux pts prs bs mf cf i) := by
    intro n
    induction n with
    | zero =>
      intro i hi
      unfold walkAux
      rw [dif_neg (by omega)]
      exact List.chain'_nil
    | succ n ih =>
      intro i hi
      unfold walkAux
      by_cases hlt : i < pts.length - 1
      · rw [dif_pos hlt]
        dsimp only
        by_cases h2 : pts.length - i = 2
        · rw [if_pos h2]
          exact List.chain'_singleton _
        · rw [if_neg h2]
          by_cases h3 : pts.length - i = 3
          · rw [if_pos h3]
            exact List.chain'_singleton _
          · rw [if_neg h3]
            have hrec := ih (i + 2) (by omega)
            by_cases hd : unitDot (vsub (pget pts (i + 2)) (pget pts (i + 1)))
                (vsub (pget pts (i + 3)) (pget pts (i + 2))) < 0
            · rw [if_pos hd]
              exact chain2_cons pts prs bs mf cf i _ rfl hrec
            · rw [if_neg hd]
              by_cases he : i = 0 ∨ i = pts.length - 4
              · rw [if_pos he]
                exact chain2_cons pts prs bs mf cf i _ rfl hrec
              · rw [if_neg he]
                exact chain2_cons pts prs bs mf cf i _ rfl hrec
      · rw [dif_neg hlt]
        exact List.chain'_nil
  intro i
  exact key pts.length i (Nat.sub_le _ _)

theorem walkAux_kinds (pts : List Point) (prs : List ℝ) (bs mf cf : ℝ) :
    ∀ i s, s ∈ walkAux pts prs bs mf cf i → specC4Kind pts s.idx s.kind := by
  have key : ∀ n i, pts.length - i ≤ n → ∀ s, s ∈ walkAux pts prs bs mf cf i →
      specC4Kind pts s.idx s.kind := by
    intro n
    induction n with
    | zero =>
      intro i hi s hs
      unfold walkAux at hs
      rw [dif_neg (by omega)] at hs
      cases hs
    | succ n ih =>
      intro i hi s hs
      unfold walkAux at hs
      by_cases hlt : i < pts.length - 1
      · rw [dif_pos hlt] at hs
        dsimp only at hs
        by_cases h2 : pts.length - i = 2
        · rw [if_pos h2] at hs
          rw [List.mem_singleton] at hs
          subst hs
          dsimp only [specC4Kind]
          exact ⟨fun _ => rfl, fun h' => absurd h' (by omega), fun h' => absurd h' (by omega)⟩
        · rw [if_neg h2] at hs
          by_cases h3 : pts.length - i = 3
          · rw [if_pos h3] at hs
            rw [List.mem_singleton] at hs
            subst hs
            dsimp only [specC4Kind]
            exact ⟨fun h' => absurd h' (by omega), fun _ => rfl, fun h' => absurd h' (by omega)⟩
          · rw [if_neg h3] at hs
            by_cases hd : unitDot (vsub (pget pts (i + 2)) (pget pts (i + 1)))
                (vsub (pget pts (i + 3)) (pget pts (i + 2))) < 0
            · rw [if_pos hd] at hs
              rcases List.mem_cons.1 hs with rfl | htl
              · dsimp only [specC4Kind]
                exact ⟨fun h' => absurd h' (by omega), fun h' => absurd h' (by omega),
                  fun _ => ⟨fun _ => Or.inl rfl, fun hns _ => absurd hd hns,
                    fun hns _ => absurd hd hns⟩⟩
              · exact ih (i + 2) (by omega) s htl
            · rw [if_neg hd] at hs
              by_cases he : i = 0 ∨ i = pts.length - 4
              · rw [if_pos he] at hs
                rcases List.mem_cons.1 hs with rfl | htl
                · dsimp only [specC4Kind]
                  exact ⟨fun h' => absurd h' (by omega), fun h' => absurd h' (by omega),
                    fun _ => ⟨fun _ => Or.inr rfl, fun _ _ => Or.inr rfl,
                      fun _ hne => absurd he hne⟩⟩
                · exact ih (i + 2) (by omega) s htl
              · rw [if_neg he] at hs
                rcases List.mem_cons.1 hs with rfl | htl
                · dsimp only [specC4Kind]
                  exact ⟨fun h' => absurd h' (by omega), fun h' => absurd h' (by omega),
                    fun _ => ⟨fun hsh => absurd hsh hd, fun _ hedge => absurd hedge he,
                      fun _ _ => rfl⟩⟩
                · exact ih (i + 2) (by omega) s htl
      · rw [dif_neg hlt] at hs
        cases hs
  intro i
  exact key pts.length i (Nat.sub_le _ _)

/-- C4 (amended): in the renderer's path walk every window's routine
follows the tie-break rule exactly as specified (sharp turn via negative
unit dot → final-segment even mid-stroke; else first or last 4-point
window → final-segment; else cubic momentum; a 3-point remainder uses the
quadratic function), but the cursor advances by 2 positions after every
4-point window — final-segment windows included — and a quadratic or line
window ends the walk, so consecutive windows always start 2 apart. -/
theorem render_walk_selection (pts : List Point) (prs : List ℝ) (bs mf cf : ℝ)
    (h : 3 ≤ pts.length) :
    List.Chain' (fun a b => b.idx = a.idx + 2) (renderSmoothedPath pts prs bs mf cf) ∧
    ∀ s ∈ renderSmoothedPath pts prs bs mf cf, specC4Kind pts s.idx s.kind := by
  unfold renderSmoothedPath
  rw [if_neg (by omega), if_neg (by omega)]
  exact ⟨walkAux_chain2 pts prs bs mf cf 0,
    fun s hs => walkAux_kinds pts prs bs mf cf 0 s hs⟩

theorem jsLenP_unitx : jsLenP ⟨1, 0⟩ = 1 := by
  have h1 : (1 : ℝ) * 1 + 0 * 0 = 1 := by norm_num
  simp [jsLenP, h1, Real.sqrt_one]

theorem unitDot_unitx : unitDot ⟨1, 0⟩ ⟨1, 0⟩ = 1 := by
  simp [unitDot, unitOf, jsLenP_unitx]

theorem vsub_ptsC4 :
    vsub (pget ptsC4 2) (pget ptsC4 1) = ⟨1, 0⟩ ∧
    vsub (pget ptsC4 3) (pget ptsC4 2) = ⟨1, 0⟩ ∧
    vsub (pget ptsC4 4) (pget ptsC4 3) = ⟨1, 0⟩ ∧
    vsub (pget ptsC4 5) (pget ptsC4 4) = ⟨1, 0⟩ := by
  have h1 : pget ptsC4 1 = ⟨1, 0⟩ := rfl
  have h2 : pget ptsC4 2 = ⟨2, 0⟩ := rfl
  have h3 : pget ptsC4 3 = ⟨3, 0⟩ := rfl
  have h4 : pget ptsC4 4 = ⟨4, 0⟩ := rfl
  have h5 : pget ptsC4 5 = ⟨5, 0⟩ := rfl
  refine ⟨?_, ?_, ?_, ?_⟩ <;>
    (rw [vsub]; ext <;> norm_num [h1, h2, h3, h4, h5])

theorem renderTrace_ptsC4 :
    (renderSmoothedPath ptsC4 prsC4 3 0.5 0.35).map (fun s => (s.idx, s.kind)) =
      [(0, SegKind.finalEdge), (2, SegKind.finalEdge), (4, SegKind.line)] := by
  obtain ⟨e1, e2, e3, e4⟩ := vsub_ptsC4
  have hd0 : ¬ (unitDot (vsub (pget ptsC4 (0 + 2)) (pget ptsC4 (0 + 1)))
      (vsub (pget ptsC4 (0 + 3)) (pget ptsC4 (0 + 2))) < 0) := by
    show ¬ (unitDot (vsub (pget ptsC4 2) (pget ptsC4 1))
      (vsub (pget ptsC4 3) (pget ptsC4 2)) < 0)
    rw [e1, e2, unitDot_unitx]
    norm_num
  have hd2 : ¬ (unitDot (vsub (pget ptsC4 (2 + 2)) (pget ptsC4 (2 + 1)))
      (vsub (pget ptsC4 (2 + 3)) (pget ptsC4 (2 + 2))) < 0) := by
    show ¬ (unitDot (vsub (pget ptsC4 4) (pget ptsC4 3))
      (vsub (pget ptsC4 5) (pget ptsC4 4)) < 0)
    rw [e3, e4, unitDot_unitx]
    norm_num
  unfold renderSmoothedPath
  rw [if_neg (by decide), if_neg (by decide)]
  unfold walkAux
  rw [dif_pos (by decide)]
  dsimp only
  rw [if_neg (by decide), if_neg (by decide), if_neg hd0, if_pos (by decide)]
  unfold walkAux
  rw [dif_pos (by decide)]
  dsimp only
  rw [if_neg (by decide), if_neg (by decide), if_neg hd2, if_pos (by decide)]
  unfold walkAux
  rw [dif_pos (by decide)]
  dsimp only
  rw [if_pos (by decide)]
  rfl

/-- C4 (counterexample): on six collinear unit-spaced points, the walk's
first window uses the final-segment function and the next window starts
at index 2, not 1, so the claimed advance of 1 position after a
final-segment window fails on this concrete stroke. -/
theorem render_walk_claim_advance_false :
    ¬ List.Chain' (fun a b => b.idx = a.idx + specC4Advance a.kind)
      (renderSmoothedPath ptsC4 prsC4 3 0.5 0.35) := by
  intro hch
  have hmap := renderTrace_ptsC4
  rcases hl : renderSmoothedPath ptsC4 prsC4 3 0.5 0.35 with _ | ⟨a, tl⟩
  · rw [hl] at hmap
    simp at hmap
  rcases tl with _ | ⟨b, tl2⟩
  · rw [hl] at hmap
    simp at hmap
  rw [hl] at hmap hch
  simp only [List.map_cons, List.cons.injEq, Prod.mk.injEq] at hmap
  obtain ⟨⟨ha1, ha2⟩, ⟨hb1, _⟩, _⟩ := hmap
  have hrel := (List.chain'_cons'.1 hch).1 b (by simp)
  rw [ha1, ha2, hb1] at hrel
  simp [specC4Advance] at hrel

theorem render_walk_selection_witness :
    3 ≤ ptsC4.length ∧
    (List.Chain' (fun a b => b.idx = a.idx + 2)
        (renderSmoothedPath ptsC4 prsC4 3 0.5 0.35) ∧
     ∀ s ∈ renderSmoothedPath ptsC4 prsC4 3 0.5 0.35, specC4Kind ptsC4 s.idx s.kind) :=
  ⟨by decide, render_walk_selection ptsC4 prsC4 3 0.5 0.35 (by decide)⟩

/-- C5 (amended): in `PathSmoother.smooth`, with at least two history
points, whenever the sample is flagged as jitter or the updated jitter
counter exceeds 1 — and the fast-movement branch (mean velocity above 0.5
with no jitter flag) does not fire first — the returned point is the
exponential blend `last*f + point*(1-f)` with
`f = min(0.9, factor + min(0.9, 0.6 + counter*0.1) * 0.3)`, where
`counter` is the jitter counter after this sample's update: the jitter
strength term is itself clamped at 0.9 before being scaled by 0.3. -/
theorem smoother_jitter_blend (st : SmootherState) (p : Point) (now : ℝ)
    (hen : st.enabled = true) (h2 : 2 ≤ st.lastPoints.length)
    (hfast : ¬ (0.5 < sAvgVel st p now ∧ ¬ sIsJitter st p now))
    (hjit : sIsJitter st p now ∨ 1 < sJC st p now) :
    (smooth st p now).1.x =
      (lastPt st).x * min 0.9 (st.factor + min 0.9 (0.6 + sJC st p now * 0.1) * 0.3) +
        p.x * (1 - min 0.9 (st.factor + min 0.9 (0.6 + sJC st p now * 0.1) * 0.3)) ∧
    (smooth st p now).1.y =
      (lastPt st).y * min 0.9 (st.factor + min 0.9 (0.6 + sJC st p now * 0.1) * 0.3) +
        p.y * (1 - min 0.9 (st.factor + min 0.9 (0.6 + sJC st p now * 0.1) * 0.3)) := by
  have hen2 : ¬ (st.enabled = false) := by simp [hen]
  have hlen0 : ¬ (st.lastPoints.length = 0) := by omega
  unfold smooth
  rw [if_neg hen2, if_neg hlen0, if_pos h2]
  dsimp only
  rw [if_neg hfast, if_pos hjit]
  exact ⟨rfl, rfl⟩

theorem sDist_C5 : sDist stC5 pC5 = 1 := by
  unfold sDist
  rw [show lastPt stC5 = ⟨0, 0, 10⟩ from rfl]
  norm_num [pC5, Real.sqrt_one]

theorem sVels_C5 : sVels stC5 pC5 20 = [0.1, 0.1, 0.1] := by
  unfold sVels sVel sDelta
  rw [sDist_C5]
  norm_num [stC5, pushCap, max_def]

theorem sAvgVel_C5 : sAvgVel stC5 pC5 20 = 0.1 := by
  unfold sAvgVel
  rw [sVels_C5]
  norm_num

theorem sDirs_C5 : sDirs stC5 pC5 = [⟨-1, 0⟩, ⟨1, 0⟩] := by
  unfold sDirs
  rw [sDist_C5, if_pos (by norm_num)]
  rw [show lastPt stC5 = ⟨0, 0, 10⟩ from rfl]
  norm_num [stC5, pC5, pushCap]

theorem sDirChange_C5 : sDirChange stC5 pC5 = 2 := by
  unfold sDirChange
  rw [sDirs_C5]
  rw [if_pos (by norm_num)]
  norm_num [adjacentSum]

theorem sIsJitter_C5 : sIsJitter stC5 pC5 20 := by
  unfold sIsJitter
  rw [sDist_C5, sDirChange_C5]
  exact ⟨by norm_num [stC5], Or.inl (by norm_num)⟩

theorem sJC_C5 : sJC stC5 pC5 20 = 5 := by
  unfold sJC
  rw [if_pos sIsJitter_C5]
  norm_num [stC5]

theorem sFast_C5 : ¬ (0.5 < sAvgVel stC5 pC5 20 ∧ ¬ sIsJitter stC5 pC5 20) := by
  rw [sAvgVel_C5]
  rintro ⟨hlt, _⟩
  norm_num at hlt

theorem smooth_C5_proj :
    (smooth stC5 pC5 20).1.x = 0.23 ∧ (smooth stC5 pC5 20).2.jitterCount = 5 := by
  have hen2 : ¬ (stC5.enabled = false) := by simp [stC5]
  have hlen0 : ¬ (stC5.lastPoints.length = 0) := by decide
  have hlen2 : 2 ≤ stC5.lastPoints.length := by decide
  constructor
  · unfold smooth
    rw [if_neg hen2, if_neg hlen0, if_pos hlen2]
    dsimp only
    rw [if_neg sFast_C5, if_pos (Or.inl sIsJitter_C5), sJC_C5]
    rw [show lastPt stC5 = ⟨0, 0, 10⟩ from rfl]
    norm_num [blendPt, stC5, pC5, min_def]
  · unfold smooth
    rw [if_neg hen2, if_neg hlen0, if_pos hlen2]
    dsimp only
    rw [if_neg sFast_C5, if_pos (Or.inl sIsJitter_C5), sJC_C5]

/-- C5 (counterexample): on the concrete jitter-flagged sample `pC5` in
state `stC5` (jitter counter 4, incremented to 5 by this sample), the
smoother returns x = 0.23 via the factor min(0.9, 0.5 + 0.9*0.3) = 0.77,
while the claimed blending factor min(0.9, factor + (0.6 + counter*0.1)*0.3)
gives x = 0.17 (post-update counter 5) or x = 0.2 (pre-update counter 4):
the claim's formula omits the inner clamp of the jitter strength at 0.9. -/
theorem smoother_jitter_formula_false :
    (smooth stC5 pC5 20).2.jitterCount = 5 ∧
    (smooth stC5 pC5 20).1.x ≠
      (lastPt stC5).x * specJitterFactor stC5.factor 5 +
        pC5.x * (1 - specJitterFactor stC5.factor 5) ∧
    (smooth stC5 pC5 20).1.x ≠
      (lastPt stC5).x * specJitterFactor stC5.factor 4 +
        pC5.x * (1 - specJitterFactor stC5.factor 4) := by
  obtain ⟨hx, hjc⟩ := smooth_C5_proj
  refine ⟨hjc, ?_, ?_⟩
  · rw [hx, show lastPt stC5 = ⟨0, 0, 10⟩ from rfl]
    norm_num [specJitterFactor, stC5, pC5, min_def]
  · rw [hx, show lastPt stC5 = ⟨0, 0, 10⟩ from rfl]
    norm_num [specJitterFactor, stC5, pC5, min_def]

theorem smoother_jitter_blend_witness :
    (stC5.enabled = true ∧ 2 ≤ stC5.lastPoints.length ∧
     ¬ (0.5 < sAvgVel stC5 pC5 20 ∧ ¬ sIsJitter stC5 pC5 20) ∧
     (sIsJitter stC5 pC5 20 ∨ 1 < sJC stC5 pC5 20)) ∧
    ((smooth stC5 pC5 20).1.x =
      (lastPt stC5).x * min 0.9 (stC5.factor + min 0.9 (0.6 + sJC stC5 pC5 20 * 0.1) * 0.3) +
        pC5.x * (1 - min 0.9 (stC5.factor + min 0.9 (0.6 + sJC stC5 pC5 20 * 0.1) * 0.3)) ∧
     (smooth stC5 pC5 20).1.y =
      (lastPt stC5).y * min 0.9 (stC5.factor + min 0.9 (0.6 + sJC stC5 pC5 20 * 0.1) * 0.3) +
        pC5.y * (1 - min 0.9 (stC5.factor + min 0.9 (0.6 + sJC stC5 pC5 20 * 0.1) * 0.3))) :=
  ⟨⟨rfl, by decide, sFast_C5, Or.inl sIsJitter_C5⟩,
   smoother_jitter_blend stC5 pC5 20 rfl (by decide) sFast_C5 (Or.inl sIsJitter_C5)⟩

end PenSDK
